import Mathlib

/-!
Verification development for the Azul CLI agent orchestration core
(`packages/server/src/agent.ts`, `packages/server/src/types.ts`).

The TypeScript source is shallowly embedded as executable Lean definitions:
strings are `String`/`List Char`, the agent's mutable fields become an
explicit `AgentState`, the external collaborators (inference engine, tool
bodies, approval decisions, random id generation) become oracle parameters,
and the WebSocket `sendMessage` callback becomes an emitted list of `Event`s.
-/

/-- The opening-brace character, written via its code point. -/
def lbraceChar : Char := '\x7b'

/-- The closing-brace character, written via its code point. -/
def rbraceChar : Char := '\x7d'

/-- Message roles of `ChatMessage` in `packages/server/src/types.ts`
(`role: "system" | "user" | "assistant"`).  The union has exactly these
three members; there is no `tool` role in the source. -/
inductive Role where
  | system
  | user
  | assistant
deriving DecidableEq, Repr

/-- `ChatMessage` from `packages/server/src/types.ts`: a role and a content
string.  The interface has no `toolCallId` field. -/
structure ChatMessage where
  role : Role
  content : String
deriving DecidableEq, Repr

/-- JSON values, as produced by `JSON.parse`.  Numbers keep their source
token so that no floating-point semantics is needed. -/
inductive Json where
  | null
  | bool (b : Bool)
  | num (tok : List Char)
  | str (s : String)
  | arr (elems : List Json)
  | obj (fields : List (String × Json))
deriving Repr

/-- Whitespace recognized by JavaScript `String.prototype.trim`
(WhiteSpace and LineTerminator code points). -/
def isJsSpace (c : Char) : Bool :=
  let n := c.toNat
  n == 0x9 || n == 0xa || n == 0xb || n == 0xc || n == 0xd || n == 0x20 ||
  n == 0xa0 || n == 0x1680 || (decide (0x2000 ≤ n) && decide (n ≤ 0x200a)) ||
  n == 0x2028 || n == 0x2029 || n == 0x202f || n == 0x205f || n == 0x3000 ||
  n == 0xfeff

/-- JavaScript `String.prototype.trim`: strip leading and trailing
whitespace. -/
def jsTrim (s : String) : String :=
  String.mk (((s.data.dropWhile isJsSpace).reverse.dropWhile isJsSpace).reverse)

/-- JavaScript `String.prototype.toLowerCase`, on the ASCII range the
commands of `handleUserMessage` live in (`Char.toLower` maps A–Z). -/
def jsToLower (s : String) : String :=
  String.mk (s.data.map Char.toLower)

/-- Whitespace accepted between JSON tokens by `JSON.parse`
(space, tab, line feed, carriage return). -/
def isJsonWs (c : Char) : Bool :=
  c == ' ' || c == '\t' || c == '\n' || c == '\r'

/-- Skip inter-token whitespace. -/
def skipWs (s : List Char) : List Char := s.dropWhile isJsonWs

/-- Numeric value of a hexadecimal digit character. -/
def hexVal (c : Char) : Nat :=
  if c.isDigit then c.toNat - '0'.toNat
  else if 'a' ≤ c ∧ c ≤ 'f' then c.toNat - 'a'.toNat + 10
  else if 'A' ≤ c ∧ c ≤ 'F' then c.toNat - 'A'.toNat + 10
  else 0

/-- Hexadecimal digit recognizer. -/
def isHexDigitChar (c : Char) : Bool :=
  c.isDigit || (decide ('a' ≤ c) && decide (c ≤ 'f')) ||
  (decide ('A' ≤ c) && decide (c ≤ 'F'))

/-- Scan the body of a JSON string literal (the opening quote already
consumed); returns the decoded characters and the remaining input.
Rejects raw control characters and malformed escapes, as `JSON.parse`
does. -/
def scanStr : List Char → Option (List Char × List Char)
  | [] => none
  | '"' :: rest => some ([], rest)
  | '\\' :: 'u' :: a :: b :: c :: d :: r2 =>
    if isHexDigitChar a && isHexDigitChar b && isHexDigitChar c && isHexDigitChar d then
      let n := 4096 * hexVal a + 256 * hexVal b + 16 * hexVal c + hexVal d
      if h : n.isValidChar then
        (scanStr r2).map (fun p => (Char.ofNatAux n h :: p.1, p.2))
      else none
    else none
  | '\\' :: e :: rest =>
    let cont (c : Char) : Option (List Char × List Char) :=
      (scanStr rest).map (fun p => (c :: p.1, p.2))
    if e = '"' then cont '"'
    else if e = '\\' then cont '\\'
    else if e = '/' then cont '/'
    else if e = 'b' then cont '\x08'
    else if e = 'f' then cont '\x0c'
    else if e = 'n' then cont '\n'
    else if e = 'r' then cont '\r'
    else if e = 't' then cont '\t'
    else none
  | c :: rest =>
    if c.toNat < 0x20 then none
    else (scanStr rest).map (fun p => (c :: p.1, p.2))

/-- Scan a JSON number token (`-?(0|[1-9][0-9]*)(\.[0-9]+)?([eE][+-]?[0-9]+)?`);
returns the token characters and the remaining input. -/
def scanNumber (s : List Char) : Option (List Char × List Char) :=
  let (sign, s1) : List Char × List Char :=
    match s with
    | '-' :: t => (['-'], t)
    | _ => ([], s)
  let intPart : Option (List Char × List Char) :=
    match s1 with
    | '0' :: t => some (['0'], t)
    | c :: _ =>
      if c.isDigit then
        let ds := s1.takeWhile Char.isDigit
        some (ds, s1.drop ds.length)
      else none
    | [] => none
  match intPart with
  | none => none
  | some (ip, s2) =>
    let (fp, s3) : List Char × List Char :=
      match s2 with
      | '.' :: t =>
        let ds := t.takeWhile Char.isDigit
        if ds.isEmpty then ([], s2) else ('.' :: ds, t.drop ds.length)
      | _ => ([], s2)
    let fracOk : Bool := match s2 with | '.' :: t => !(t.takeWhile Char.isDigit).isEmpty | _ => true
    if !fracOk then none
    else
      match s3 with
      | e :: t =>
        if e = 'e' ∨ e = 'E' then
          let (es, t1) : List Char × List Char :=
            match t with
            | '+' :: u => (['+'], u)
            | '-' :: u => (['-'], u)
            | _ => ([], t)
          let ds := t1.takeWhile Char.isDigit
          if ds.isEmpty then none
          else some (sign ++ ip ++ fp ++ e :: es ++ ds, t1.drop ds.length)
        else some (sign ++ ip ++ fp, s3)
      | [] => some (sign ++ ip ++ fp, s3)

/-- Parser modes: one JSON value, the element list of an array after the
opening `[` (accumulator in reverse), or the member list of an object
after the opening brace (accumulator in reverse). -/
inductive PMode where
  | value
  | arrElems (acc : List Json)
  | objMembers (acc : List (String × Json))

/-- Recursive-descent JSON value parser, the model of `JSON.parse`, with
the three mutually recursive productions folded into one function over a
mode tag so that recursion is structural on the fuel; the fuel strictly
decreases on every recursive call and `jsonParse` supplies enough fuel for
any input. -/
def parseF : Nat → PMode → List Char → Option (Json × List Char)
  | 0, _, _ => none
  | Nat.succ f, PMode.value, s =>
    match skipWs s with
    | [] => none
    | c :: rest =>
      if c = lbraceChar then parseF f (PMode.objMembers []) rest
      else if c = '[' then parseF f (PMode.arrElems []) rest
      else if c = '"' then (scanStr rest).map (fun p => (Json.str (String.mk p.1), p.2))
      else match skipWs s with
        | 't' :: 'r' :: 'u' :: 'e' :: r => some (Json.bool true, r)
        | 'f' :: 'a' :: 'l' :: 's' :: 'e' :: r => some (Json.bool false, r)
        | 'n' :: 'u' :: 'l' :: 'l' :: r => some (Json.null, r)
        | s' => (scanNumber s').map (fun p => (Json.num p.1, p.2))
  | Nat.succ f, PMode.arrElems acc, s =>
    match skipWs s with
    | ']' :: r => if acc.isEmpty then some (Json.arr [], r) else none
    | _ =>
      match parseF f PMode.value s with
      | none => none
      | some (v, s1) =>
        match skipWs s1 with
        | ',' :: r => parseF f (PMode.arrElems (v :: acc)) r
        | ']' :: r => some (Json.arr (v :: acc).reverse, r)
        | _ => none
  | Nat.succ f, PMode.objMembers acc, s =>
    match skipWs s with
    | c :: r =>
      if c = rbraceChar then
        if acc.isEmpty then some (Json.obj [], r) else none
      else if c = '"' then
        match scanStr r with
        | none => none
        | some (kcs, s1) =>
          match skipWs s1 with
          | ':' :: s2 =>
            match parseF f PMode.value s2 with
            | none => none
            | some (v, s3) =>
              match skipWs s3 with
              | ',' :: s4 => parseF f (PMode.objMembers ((String.mk kcs, v) :: acc)) s4
              | c2 :: s4 =>
                if c2 = rbraceChar then some (Json.obj ((String.mk kcs, v) :: acc).reverse, s4)
                else none
              | [] => none
          | _ => none
      else none
    | [] => none

/-- One JSON value: `parseF` in value mode. -/
def parseVal (f : Nat) (s : List Char) : Option (Json × List Char) :=
  parseF f PMode.value s

/-- Model of `JSON.parse`: parse one value and require only whitespace to
remain, failing (throwing, in JavaScript) otherwise. -/
def jsonParse (s : List Char) : Option Json :=
  match parseVal (4 * s.length + 8) s with
  | some (j, rest) => if (skipWs rest).isEmpty then some j else none
  | none => none

/-- Index of the last occurrence of `c`, if any. -/
def lastIdxOf (c : Char) : List Char → Option Nat
  | [] => none
  | x :: xs =>
    match lastIdxOf c xs with
    | some k => some (k + 1)
    | none => if x = c then some 0 else none

/-- The substring selected by `response.match(/\x7b[\s\S]*\x7d/)` in
`Agent.parseResponse`: the (greedy, leftmost) match runs from the first
opening brace to the last closing brace of the input, provided that
closing brace lies after the opening one; otherwise there is no match. -/
def jsonExtract (s : List Char) : Option (List Char) :=
  match lastIdxOf rbraceChar (s.dropWhile (fun c => c ≠ lbraceChar)) with
  | some k => some ((s.dropWhile (fun c => c ≠ lbraceChar)).take (k + 1))
  | none => none

/-- Result of `Agent.parseResponse`: either the successfully parsed
structured payload (`return parsed`), or the fallback object
`\x7b response: raw text \x7d`. -/
inductive ParseResult where
  | parsed (j : Json)
  | raw (s : String)
deriving Repr

/-- `Agent.parseResponse` (`agent.ts`): locate the brace-delimited match,
try `JSON.parse` on it; on a missing match or a parse failure fall back to
the whole response text. -/
def parseResponse (response : String) : ParseResult :=
  match jsonExtract response.data with
  | some sub =>
    match jsonParse sub with
    | some j => ParseResult.parsed j
    | none => ParseResult.raw response
  | none => ParseResult.raw response

/-- Property lookup on a parsed JSON value, as JavaScript member access on
the parse result: on objects the last binding of the key wins (as in
`JSON.parse` for duplicate keys); on every other value the properties the
agent reads (`thought`, `tool_calls`, `response`, `name`, `arguments`) are
`undefined`, i.e. `none`. -/
def getField (j : Json) (k : String) : Option Json :=
  match j with
  | Json.obj fs => fs.foldl (fun acc p => if p.1 = k then some p.2 else acc) none
  | _ => none

/-- Digits of a JSON number token that decide whether its value is zero:
every mantissa digit is `0` exactly when the value is zero (the exponent
cannot rescue a zero mantissa). -/
def numTokenIsZero (tok : List Char) : Bool :=
  ((tok.takeWhile (fun c => !(c == 'e' || c == 'E'))).filter Char.isDigit).all (· == '0')

/-- JavaScript truthiness of a parsed JSON value (`if (x)`). -/
def Json.truthy : Json → Bool
  | Json.null => false
  | Json.bool b => b
  | Json.num tok => !(numTokenIsZero tok)
  | Json.str s => !s.isEmpty
  | Json.arr _ => true
  | Json.obj _ => true

/-- Hexadecimal digit character (lowercase), for string escaping. -/
def hexDigitChar (n : Nat) : Char :=
  if n < 10 then Char.ofNat ('0'.toNat + n) else Char.ofNat ('a'.toNat + n - 10)

/-- Four-digit hexadecimal rendering of a code point below 0x10000. -/
def hex4 (n : Nat) : List Char :=
  [hexDigitChar (n / 4096 % 16), hexDigitChar (n / 256 % 16),
   hexDigitChar (n / 16 % 16), hexDigitChar (n % 16)]

/-- Escaping of one character inside a `JSON.stringify` string literal. -/
def escCharJson (c : Char) : List Char :=
  if c = '"' then ['\\', '"']
  else if c = '\\' then ['\\', '\\']
  else if c = '\x08' then ['\\', 'b']
  else if c = '\x0c' then ['\\', 'f']
  else if c = '\n' then ['\\', 'n']
  else if c = '\r' then ['\\', 'r']
  else if c = '\t' then ['\\', 't']
  else if c.toNat < 0x20 then '\\' :: 'u' :: hex4 c.toNat
  else [c]

/-- A `JSON.stringify` string literal: quotes around the escaped body. -/
def quoteJson (s : String) : String :=
  "\"" ++ String.mk (s.data.map escCharJson).flatten ++ "\""

mutual

/-- Model of `JSON.stringify` on parsed values (used by the agent when it
records `Executed ... with result: ...` in the history). -/
def Json.stringify : Json → String
  | Json.null => "null"
  | Json.bool true => "true"
  | Json.bool false => "false"
  | Json.num tok => String.mk tok
  | Json.str s => quoteJson s
  | Json.arr l => "[" ++ stringifyElems l ++ "]"
  | Json.obj fs => "\x7b" ++ stringifyFields fs ++ "\x7d"

/-- Comma-separated serialization of array elements. -/
def stringifyElems : List Json → String
  | [] => ""
  | [x] => x.stringify
  | x :: xs => x.stringify ++ "," ++ stringifyElems xs

/-- Comma-separated serialization of object members. -/
def stringifyFields : List (String × Json) → String
  | [] => ""
  | [(k, v)] => quoteJson k ++ ":" ++ v.stringify
  | (k, v) :: fs => quoteJson k ++ ":" ++ v.stringify ++ "," ++ stringifyFields fs

end

mutual

/-- JavaScript string coercion `String(v)` of a parsed JSON value, as used
by template literals in `agent.ts`. -/
def jsTemplateStrJ : Json → String
  | Json.null => "null"
  | Json.bool true => "true"
  | Json.bool false => "false"
  | Json.num tok => String.mk tok
  | Json.str s => s
  | Json.arr l => jsTemplateArr l
  | Json.obj _ => "[object Object]"

/-- `Array.prototype.toString`: elements joined with commas, `null`
elements rendered empty. -/
def jsTemplateArr : List Json → String
  | [] => ""
  | [x] => (match x with | Json.null => "" | v => jsTemplateStrJ v)
  | x :: xs =>
    (match x with | Json.null => "" | v => jsTemplateStrJ v) ++ "," ++ jsTemplateArr xs

end

/-- String coercion of a possibly-`undefined` value: `undefined`
interpolates as the text `undefined`. -/
def jsTemplateStrOpt : Option Json → String
  | none => "undefined"
  | some j => jsTemplateStrJ j

/-- Outcome of a tool body (`ToolDefinition.execute` in `types.ts`):
a result value, or a thrown error with a message. -/
inductive ExecResult where
  | ok (result : Json)
  | thrown (message : String)

/-- `ToolDefinition` from `packages/server/src/types.ts`.  The execution
capability is an external collaborator and enters the model as an
arbitrary function. -/
structure ToolDefinition where
  name : String
  description : String
  parameters : Json
  requiresApproval : Bool
  execute : Option Json → ExecResult

/-- Modelled from the spec: `tools/index.ts` (absent from the source tree)
populates a fixed registry `tools` and exposes `getToolByName`, a lookup
returning the definition whose `name` strictly equals the requested name,
or not-found.  A non-string requested name never matches. -/
def getToolByName (registry : List ToolDefinition) (name : Option Json) : Option ToolDefinition :=
  registry.find? (fun t =>
    match name with
    | some (Json.str s) => s == t.name
    | _ => false)

/-- Outcome of one inference call (`llm.getCompletion`): the accumulated
response text, or a thrown error caught by the loop. -/
inductive InfResult where
  | ok (response : String)
  | err (message : String)

/-- The external collaborators of one session, as oracles: the tool
registry, the inference capability indexed by per-turn call number, the
approval decision each `requestApproval` eventually awaits (an explicit
`handleApproval` boolean, or `false` on the 60000 ms timeout), and the
`Math.random`-derived request-id generator. -/
structure Env where
  registry : List ToolDefinition
  llm : Nat → InfResult
  decisions : Nat → Bool
  idGen : Nat → String

/-- The mutable fields of class `Agent`: the system prompt set at
construction, the conversation history, the loop counter, and the keys of
the `pendingApprovals` map.  `approvalIdx` counts approval requests so the
decision and id oracles can be consulted deterministically. -/
structure AgentState where
  systemPrompt : String
  history : List ChatMessage
  currentLoopCount : Nat
  pendingApprovals : List String
  approvalIdx : Nat

/-- Messages pushed through the `sendMessage` callback, one constructor
per `type` tag occurring in `agent.ts`.  The incremental
`agent_response_stream` relay events and the `token_stats` payload carry
only collaborator-produced data and are left unmodeled / payload-free. -/
inductive Event where
  | user_message_received (content : String)
  | agent_thinking (content : String)
  | token_stats
  | agent_thought (content : Json)
  | agent_response (content : String)
  | tool_call (tool : String) (args : Option Json)
  | tool_result (tool : String) (result : Json)
  | approval_request (requestId : String) (tool : String) (args : Option Json)
  | error (message : String)

/-- The system prompt installed by the `Agent` constructor. -/
def azulSystemPrompt : String :=
  "You are Azul, an AI coding assistant running locally. You help users with coding tasks by analyzing files, executing commands, and providing solutions.\n\nYou have access to tools that let you interact with the filesystem and execute shell commands. Use these tools to help the user effectively.\n\nWhen responding, think step by step:\n1. Understand what the user is asking\n2. Determine which tools (if any) you need to use\n3. Execute the tools\n4. Provide a helpful response\n\nAlways be concise and helpful. Format code blocks with proper syntax highlighting."

/-- `maxLoopIterations` in `agent.ts`. -/
def maxLoopIterations : Nat := 10

/-- The `setTimeout` delay in `requestApproval` (milliseconds). -/
def approvalTimeoutMs : Nat := 60000

/-- The `agent_thinking` status text. -/
def thinkingMsg : String := "Thinking..."

/-- The `error` event text emitted when the iteration cap is hit. -/
def maxIterErrMsg : String :=
  "Maximum loop iterations reached. Stopping to prevent infinite loop."

/-- The final `agent_response` text emitted when the iteration cap is hit. -/
def maxIterRespMsg : String :=
  "I\x27ve reached the maximum number of iterations. Please rephrase your request or try a different approach."

/-- A session as the constructor leaves it: prompt installed, everything
else empty. -/
def freshAgent : AgentState :=
  { systemPrompt := azulSystemPrompt
    history := []
    currentLoopCount := 0
    pendingApprovals := []
    approvalIdx := 0 }

/-- `Agent.reset`: clear the history, zero the counter, resolve every
pending approval with `false` and clear the table.  The second component
is the list of promise resolutions performed.  (`llm.resetTokenStats` only
touches the external inference collaborator.) -/
def resetAgent (st : AgentState) : AgentState × List (String × Bool) :=
  ({ st with history := [], currentLoopCount := 0, pendingApprovals := [] },
   st.pendingApprovals.map (fun r => (r, false)))

/-- `Agent.handleApproval`: look up the pending request; when present,
resolve its promise with the decision and delete it; when absent, do
nothing.  The second component lists the promise resolutions performed. -/
def handleApproval (st : AgentState) (requestId : String) (approved : Bool) :
    AgentState × List (String × Bool) :=
  if requestId ∈ st.pendingApprovals then
    ({ st with pendingApprovals := st.pendingApprovals.erase requestId },
     [(requestId, approved)])
  else (st, [])

/-- The synchronous prefix of `Agent.requestApproval`: register the fresh
request id in the pending table and emit the `approval_request` event.
The generated id is a parameter (the source draws it from `Math.random`). -/
def requestApproval (st : AgentState) (requestId toolName : String) (args : Option Json) :
    AgentState × Event :=
  ({ st with pendingApprovals := st.pendingApprovals ++ [requestId] },
   Event.approval_request requestId toolName args)

/-- External stimuli that can touch the pending-approvals table while a
request awaits its decision: an explicit `handleApproval` call, the firing
of the 60000 ms `setTimeout` armed by `requestApproval`, or `reset`. -/
inductive ApprovalEvent where
  | approve (requestId : String) (approved : Bool)
  | timeoutFire (requestId : String)
  | resetCall
deriving DecidableEq

/-- One stimulus applied to the session state; returns the promise
resolutions it performs.  The timeout body checks membership, deletes the
entry and resolves `false`, exactly as the `setTimeout` callback does. -/
def apprStep (st : AgentState) : ApprovalEvent → AgentState × List (String × Bool)
  | ApprovalEvent.approve rid b => handleApproval st rid b
  | ApprovalEvent.timeoutFire rid =>
    if rid ∈ st.pendingApprovals then
      ({ st with pendingApprovals := st.pendingApprovals.erase rid }, [(rid, false)])
    else (st, [])
  | ApprovalEvent.resetCall => resetAgent st

/-- A sequence of stimuli, in arrival order, with the accumulated promise
resolutions. -/
def apprRun (st : AgentState) : List ApprovalEvent → AgentState × List (String × Bool)
  | [] => (st, [])
  | e :: evs =>
    let r1 := apprStep st e
    let r2 := apprRun r1.1 evs
    (r2.1, r1.2 ++ r2.2)

/-- The failure payload sent when an approval is denied. -/
def denialResult : Json :=
  Json.obj [("success", Json.bool false), ("error", Json.str "User denied approval")]

/-- The failure payload sent when a tool body throws. -/
def thrownResult (message : String) : Json :=
  Json.obj [("success", Json.bool false), ("error", Json.str message)]

/-- Output of the tool phase: the session state, the events sent, and an
observation of which `execute` capabilities actually ran (tool name and
arguments of each invocation, in order). -/
structure ExecOut where
  state : AgentState
  events : List Event
  executed : List (String × Option Json)

/-- The execute-and-record tail of one tool call in
`Agent.executeToolCalls`: run the body inside `try`; on a result, emit the
`tool_result` event and append the `Executed ...` assistant message; on a
throw, emit the failure `tool_result` and append the `Error executing ...`
assistant message. -/
def runToolExec (t : ToolDefinition) (args : Option Json) (st : AgentState)
    (evs : List Event) : ExecOut :=
  match t.execute args with
  | ExecResult.ok r =>
    { state := { st with history := st.history ++
        [⟨Role.assistant, "Executed " ++ t.name ++ " with result: " ++ r.stringify⟩] }
      events := evs ++ [Event.tool_result t.name r]
      executed := [(t.name, args)] }
  | ExecResult.thrown m =>
    { state := { st with history := st.history ++
        [⟨Role.assistant, "Error executing " ++ t.name ++ ": " ++ m⟩] }
      events := evs ++ [Event.tool_result t.name (thrownResult m)]
      executed := [] }

/-- One iteration of the `for` loop in `Agent.executeToolCalls`.  A name
absent from the registry yields only an `error` event (`continue`).  A
tool requiring approval awaits `requestApproval`; the entry the await adds
to `pendingApprovals` is removed again (by `handleApproval` or the
timeout) before the await returns, so the table is unchanged and only the
`approval_request` event and the consumed decision remain observable.  A
denial emits the denial `tool_result`, appends the denial assistant
message and skips execution. -/
def execOneCall (env : Env) (st : AgentState) (call : Json) : ExecOut :=
  let name := getField call "name"
  match getToolByName env.registry name with
  | none =>
    { state := st
      events := [Event.error ("Unknown tool: " ++ jsTemplateStrOpt name)]
      executed := [] }
  | some t =>
    let args := getField call "arguments"
    if t.requiresApproval then
      let rid := env.idGen st.approvalIdx
      let approved := env.decisions st.approvalIdx
      let st1 := { st with approvalIdx := st.approvalIdx + 1 }
      let evs := [Event.tool_call t.name args, Event.approval_request rid t.name args]
      if approved then runToolExec t args st1 evs
      else
        { state := { st1 with history := st1.history ++
            [⟨Role.assistant, "Tool " ++ t.name ++ " was denied by the user."⟩] }
          events := evs ++ [Event.tool_result t.name denialResult]
          executed := [] }
    else runToolExec t args st [Event.tool_call t.name args]

/-- `Agent.executeToolCalls`: the calls of one batch processed
sequentially, each threading the state left by the previous one. -/
def executeToolCalls (env : Env) (st : AgentState) : List Json → ExecOut
  | [] => { state := st, events := [], executed := [] }
  | call :: rest =>
    let r1 := execOneCall env st call
    let r2 := executeToolCalls env r1.state rest
    { state := r2.state, events := r1.events ++ r2.events,
      executed := r1.executed ++ r2.executed }

/-- How the loop treats `parsedResponse.tool_calls`: no batch (the guard
`tool_calls && tool_calls.length > 0` is falsy, or the value is not
iterable-with-length), a batch of call values, or a `TypeError` (a
non-iterable value that passes the guard). -/
inductive TCDecision where
  | noCalls
  | calls (batch : List Json)
  | typeError

/-- JavaScript `v > 0` for the property values a `length` guard can
meet here: positive numbers and `true` pass. -/
def lengthPositive : Json → Bool
  | Json.num tok => !(numTokenIsZero tok) && !(tok.head? == some '-')
  | Json.bool b => b
  | _ => false

/-- The guard and iteration of `parsedResponse.tool_calls`: an array is
iterated when non-empty; a non-empty string passes the guard and
`for...of` iterates its one-character substrings; an object passing a
positive `length` guard is not iterable and throws; everything else fails
the guard (`undefined`, `null`, `false`, numbers and booleans have no
`length`). -/
def toolCallsDecision : Option Json → TCDecision
  | none => TCDecision.noCalls
  | some (Json.arr l) => if 0 < l.length then TCDecision.calls l else TCDecision.noCalls
  | some (Json.str s) =>
    if 0 < s.length then TCDecision.calls (s.data.map (fun c => Json.str (String.mk [c])))
    else TCDecision.noCalls
  | some (Json.obj fs) =>
    match getField (Json.obj fs) "length" with
    | some v => if lengthPositive v then TCDecision.typeError else TCDecision.noCalls
    | none => TCDecision.noCalls
  | some _ => TCDecision.noCalls

/-- The engine message for iterating a non-iterable `tool_calls`. -/
def typeErrorMsg : String := "parsedResponse.tool_calls is not iterable"

/-- The `parsedResponse.response` branch guard: a truthy `response` field
is emitted as the final answer (non-string payloads are carried by their
string coercion). -/
def responseField (j : Json) : Option String :=
  match getField j "response" with
  | some v => if v.truthy then some (jsTemplateStrJ v) else none
  | none => none

/-- Output of one turn of the loop (or of `handleUserMessage`): final
state, emitted events, number of inference invocations, observed
`execute` invocations, and promise resolutions performed. -/
structure TurnOut where
  state : AgentState
  events : List Event
  infCalls : Nat
  executed : List (String × Option Json)
  resolutions : List (String × Bool)

/-- The `agent_thought` emission: a truthy `thought` field of the parsed
payload is sent, anything else is not. -/
def thoughtEvents (j : Json) : List Event :=
  match getField j "thought" with
  | some v => if v.truthy then [Event.agent_thought v] else []
  | none => []

/-- `Agent.runAgentLoop`.  At or above the iteration cap: the fixed error
and final messages, nothing else.  Below it: increment the counter, invoke
inference (the oracle indexed by the pre-increment count); a thrown
inference error is caught and surfaced as an `error` event; otherwise the
response is parsed, a truthy `thought` is emitted, a non-empty tool batch
runs `executeToolCalls` and recurses, and otherwise a truthy `response`
field—or, failing that, the raw response text—is emitted as the final
answer and appended as an assistant message.  The raw-fallback parse
result behaves identically whether the fallback text is empty (the `else`
branch) or not (the truthy-`response` branch), so both are rendered at
once.  Streamed `agent_response_stream` increments are relay events of the
external observer and are not modeled. -/
def runAgentLoop (env : Env) (st : AgentState) : TurnOut :=
  if _h : maxLoopIterations ≤ st.currentLoopCount then
    { state := st
      events := [Event.error maxIterErrMsg, Event.agent_response maxIterRespMsg]
      infCalls := 0, executed := [], resolutions := [] }
  else
    let st1 := { st with currentLoopCount := st.currentLoopCount + 1 }
    match env.llm st.currentLoopCount with
    | InfResult.err m =>
      { state := st1
        events := [Event.agent_thinking thinkingMsg, Event.error m]
        infCalls := 1, executed := [], resolutions := [] }
    | InfResult.ok response =>
      let headEvs := [Event.agent_thinking thinkingMsg, Event.token_stats]
      match parseResponse response with
      | ParseResult.raw s =>
        { state := { st1 with history := st1.history ++ [⟨Role.assistant, s⟩] }
          events := headEvs ++ [Event.agent_response s]
          infCalls := 1, executed := [], resolutions := [] }
      | ParseResult.parsed j =>
        let thoughtEvs := thoughtEvents j
        match toolCallsDecision (getField j "tool_calls") with
        | TCDecision.calls batch =>
          let ex := executeToolCalls env st1 batch
          let rest := runAgentLoop env ex.state
          { state := rest.state
            events := headEvs ++ thoughtEvs ++ ex.events ++ rest.events
            infCalls := 1 + rest.infCalls
            executed := ex.executed ++ rest.executed
            resolutions := rest.resolutions }
        | TCDecision.typeError =>
          { state := st1
            events := headEvs ++ thoughtEvs ++ [Event.error typeErrorMsg]
            infCalls := 1, executed := [], resolutions := [] }
        | TCDecision.noCalls =>
          match responseField j with
          | some rtext =>
            { state := { st1 with history := st1.history ++ [⟨Role.assistant, rtext⟩] }
              events := headEvs ++ thoughtEvs ++ [Event.agent_response rtext]
              infCalls := 1, executed := [], resolutions := [] }
          | none =>
            { state := { st1 with history := st1.history ++ [⟨Role.assistant, response⟩] }
              events := headEvs ++ thoughtEvs ++ [Event.agent_response response]
              infCalls := 1, executed := [], resolutions := [] }
termination_by maxLoopIterations - st.currentLoopCount
decreasing_by
  have hone : ∀ (c : Json) (s : AgentState),
      (execOneCall env s c).state.currentLoopCount = s.currentLoopCount := by
    intro c s
    simp only [execOneCall, runToolExec]
    split
    · rfl
    · split
      · split
        · split <;> rfl
        · rfl
      · split <;> rfl
  have hall : ∀ (cs : List Json) (s : AgentState),
      (executeToolCalls env s cs).state.currentLoopCount = s.currentLoopCount := by
    intro cs
    induction cs with
    | nil => intro s; rfl
    | cons c rest ihc =>
      intro s
      show (executeToolCalls env (execOneCall env s c).state rest).state.currentLoopCount = _
      rw [ihc, hone]
  rw [hall]
  dsimp only
  omega

/-- `Agent.handleUserMessage`: intercept the `reset` and `exit`/`quit`
commands before anything touches the history or the inference engine;
otherwise zero the loop counter, append the user message, echo it and run
the loop. -/
def handleUserMessage (env : Env) (st : AgentState) (content : String) : TurnOut :=
  if jsTrim (jsToLower content) = "reset" then
    let r := resetAgent st
    { state := r.1
      events := [Event.agent_response "Memory reset. Conversation history cleared."]
      infCalls := 0, executed := [], resolutions := r.2 }
  else if jsTrim (jsToLower content) = "exit" ∨ jsTrim (jsToLower content) = "quit" then
    { state := st
      events := [Event.agent_response "Goodbye! Exiting..."]
      infCalls := 0, executed := [], resolutions := [] }
  else
    let st1 := { st with
      currentLoopCount := 0
      history := st.history ++ [⟨Role.user, content⟩] }
    let out := runAgentLoop env st1
    { out with events := Event.user_message_received content :: out.events }

/-- The messages a tool-call batch appended to the history: everything
past the entry length. -/
def newMessages (env : Env) (st : AgentState) (batch : List Json) : List ChatMessage :=
  (executeToolCalls env st batch).state.history.drop st.history.length

/-- A registry entry shaped like `readFileTool` (`requiresApproval:
false`), with its external body abstracted to a fixed result. -/
def sampleReadTool : ToolDefinition :=
  { name := "read_file", description := "Read the contents of a file"
    parameters := Json.obj [], requiresApproval := false
    execute := fun _ => ExecResult.ok (Json.str "data") }

/-- A registry entry shaped like `executeCommandTool` (`requiresApproval:
true`), with its external body abstracted to a fixed result. -/
def sampleExecTool : ToolDefinition :=
  { name := "execute_command", description := "Execute a shell command"
    parameters := Json.obj [], requiresApproval := true
    execute := fun _ => ExecResult.ok (Json.str "out") }

/-- A concrete environment for witnesses: two registered tools, an
inference oracle that always answers plain prose, denied approvals. -/
def envW : Env :=
  { registry := [sampleReadTool, sampleExecTool]
    llm := fun _ => InfResult.ok "hello"
    decisions := fun _ => false
    idGen := fun n => "rid" ++ toString n }

/-- A well-formed tool call for a name absent from `envW`. -/
def c3call : Json := Json.obj [("name", Json.str "foo"), ("arguments", Json.obj [])]

/-- A well-formed `read_file` tool call. -/
def readCall : Json :=
  Json.obj [("name", Json.str "read_file"), ("arguments", Json.obj [("path", Json.str "a.txt")])]

/-- A well-formed `execute_command` tool call. -/
def execCall : Json :=
  Json.obj [("name", Json.str "execute_command"), ("arguments", Json.obj [("command", Json.str "ls")])]

/-- Model output whose single well-formed payload block is surrounded by
filler that itself contains a closing brace. -/
def c8input : String := "ok \x7b\"response\":\"hi\"\x7d zz\x7d"


/-- A session whose loop counter already sits at the cap. -/
def maxedAgent : AgentState := { freshAgent with currentLoopCount := maxLoopIterations }

/-- A session with one pending approval request. -/
def pendingAgent : AgentState := { freshAgent with pendingApprovals := ["r1"] }

/-- The state left by a denied approval for tool `t`: the request counter
advanced and the denial message appended. -/
def denialState (st : AgentState) (t : ToolDefinition) : AgentState :=
  { st with
    approvalIdx := st.approvalIdx + 1
    history := st.history ++
      [⟨Role.assistant, "Tool " ++ t.name ++ " was denied by the user."⟩] }

theorem runToolExec_count (t : ToolDefinition) (args : Option Json) (st : AgentState)
    (evs : List Event) :
    (runToolExec t args st evs).state.currentLoopCount = st.currentLoopCount := by
  unfold runToolExec
  cases t.execute args <;> rfl

theorem execOneCall_count (env : Env) (st : AgentState) (call : Json) :
    (execOneCall env st call).state.currentLoopCount = st.currentLoopCount := by
  simp only [execOneCall]
  split
  · rfl
  · split
    · split
      · rw [runToolExec_count]
      · rfl
    · rw [runToolExec_count]

theorem executeToolCalls_count (env : Env) (calls : List Json) :
    ∀ st : AgentState,
      (executeToolCalls env st calls).state.currentLoopCount = st.currentLoopCount := by
  induction calls with
  | nil => intro st; rfl
  | cons c rest ih =>
    intro st
    show (executeToolCalls env (execOneCall env st c).state rest).state.currentLoopCount = _
    rw [ih, execOneCall_count]

theorem runAgentLoop_count_arith (env : Env) :
    ∀ n st, maxLoopIterations - st.currentLoopCount = n →
      (runAgentLoop env st).state.currentLoopCount =
        st.currentLoopCount + (runAgentLoop env st).infCalls ∧
      (st.currentLoopCount ≤ maxLoopIterations →
        (runAgentLoop env st).state.currentLoopCount ≤ maxLoopIterations) := by
  intro n
  induction n using Nat.strong_induction_on with
  | _ n ih =>
    intro st hn
    rw [runAgentLoop]
    split
    · rename_i hge
      exact ⟨by simp, fun h => by simpa using h⟩
    · rename_i hlt
      split
      · exact ⟨by simp, fun _ => by simp; omega⟩
      · rename_i response hresp
        split
        · exact ⟨by simp, fun _ => by simp; omega⟩
        · rename_i j hj
          split
          · rename_i batch hbatch
            have hc : (executeToolCalls env
                { st with currentLoopCount := st.currentLoopCount + 1 } batch).state.currentLoopCount
                = st.currentLoopCount + 1 := executeToolCalls_count env batch _
            have hrec := ih (maxLoopIterations - (executeToolCalls env
                { st with currentLoopCount := st.currentLoopCount + 1 } batch).state.currentLoopCount)
              (by rw [hc]; omega) _ rfl
            constructor
            · simp only
              rw [hrec.1, hc]
              omega
            · intro _
              simp only
              exact hrec.2 (by rw [hc]; omega)
          · exact ⟨by simp, fun _ => by simp; omega⟩
          · split
            · exact ⟨by simp, fun _ => by simp; omega⟩
            · exact ⟨by simp, fun _ => by simp; omega⟩

theorem runAgentLoop_at_cap (env : Env) (st : AgentState)
    (h : maxLoopIterations ≤ st.currentLoopCount) :
    runAgentLoop env st =
      ⟨st, [Event.error maxIterErrMsg, Event.agent_response maxIterRespMsg], 0, [], []⟩ := by
  rw [runAgentLoop]
  simp [h]

/-- C1: per-turn iteration bound.  `maxLoopIterations` is 10; starting at
or below the cap the counter stays at or below the cap; the counter grows
by exactly one per inference invocation (so it is incremented once per
loop entry); once the counter has reached the cap the loop performs no
inference at all and emits exactly the fixed maximum-iterations error and
final-response messages, leaving the state untouched; and a user turn —
which zeroes the counter before the loop — performs at most 10 inference
calls, whatever the previous turn left behind. -/
theorem C1_iteration_cap (env : Env) (st : AgentState) :
    maxLoopIterations = 10 ∧
    (st.currentLoopCount ≤ maxLoopIterations →
      (runAgentLoop env st).state.currentLoopCount ≤ maxLoopIterations) ∧
    (runAgentLoop env st).state.currentLoopCount =
      st.currentLoopCount + (runAgentLoop env st).infCalls ∧
    (maxLoopIterations ≤ st.currentLoopCount →
      runAgentLoop env st =
        ⟨st, [Event.error maxIterErrMsg, Event.agent_response maxIterRespMsg], 0, [], []⟩) ∧
    ∀ content : String, (handleUserMessage env st content).infCalls ≤ maxLoopIterations := by
  refine ⟨rfl, fun h => (runAgentLoop_count_arith env _ st rfl).2 h,
    (runAgentLoop_count_arith env _ st rfl).1, runAgentLoop_at_cap env st, ?_⟩
  intro content
  unfold handleUserMessage
  split
  · simp
  · split
    · simp
    · simp only
      have h := runAgentLoop_count_arith env _
        { st with currentLoopCount := 0, history := st.history ++ [⟨Role.user, content⟩] } rfl
      have h1 := h.1
      have h2 := h.2 (Nat.zero_le _)
      dsimp only at h1 h2 ⊢
      omega

/-- Witness for `C1_iteration_cap` at concrete inputs. -/
theorem C1_iteration_cap_witness :
    freshAgent.currentLoopCount ≤ maxLoopIterations ∧
    (runAgentLoop envW freshAgent).state.currentLoopCount ≤ maxLoopIterations ∧
    maxLoopIterations ≤ maxedAgent.currentLoopCount ∧
    runAgentLoop envW maxedAgent =
      ⟨maxedAgent, [Event.error maxIterErrMsg, Event.agent_response maxIterRespMsg], 0, [], []⟩ ∧
    (handleUserMessage envW freshAgent "hi").infCalls ≤ maxLoopIterations :=
  ⟨by decide, (C1_iteration_cap envW freshAgent).2.1 (by decide), by decide,
   (C1_iteration_cap envW maxedAgent).2.2.2.1 (by decide),
   (C1_iteration_cap envW freshAgent).2.2.2.2 "hi"⟩

/-- C2: whenever the response text contains no brace-delimited payload, or
the located payload fails `JSON.parse`, `parseResponse` returns the whole
raw text as the final answer, and the loop finishes the turn normally:
it emits exactly the thinking, stats and `agent_response` events with the
raw text, appends it as the assistant message, and raises no error. -/
theorem C2_parse_failure_raw (env : Env) (st : AgentState) (s : String)
    (hlt : st.currentLoopCount < maxLoopIterations)
    (hllm : env.llm st.currentLoopCount = InfResult.ok s)
    (hfail : jsonExtract s.data = none ∨
      ∃ sub, jsonExtract s.data = some sub ∧ jsonParse sub = none) :
    parseResponse s = ParseResult.raw s ∧
    runAgentLoop env st =
      ⟨{ st with
          currentLoopCount := st.currentLoopCount + 1
          history := st.history ++ [⟨Role.assistant, s⟩] },
       [Event.agent_thinking thinkingMsg, Event.token_stats, Event.agent_response s],
       1, [], []⟩ := by
  have hp : parseResponse s = ParseResult.raw s := by
    unfold parseResponse
    rcases hfail with h | ⟨sub, h1, h2⟩
    · rw [h]
    · rw [h1]; simp [h2]
  refine ⟨hp, ?_⟩
  rw [runAgentLoop, dif_neg (by omega)]
  simp only [hllm, hp]
  rfl

/-- Witness for `C2_parse_failure_raw` at concrete inputs. -/
theorem C2_parse_failure_raw_witness :
    parseResponse "hello" = ParseResult.raw "hello" ∧
    runAgentLoop envW freshAgent =
      ⟨{ freshAgent with
          currentLoopCount := freshAgent.currentLoopCount + 1
          history := freshAgent.history ++ [⟨Role.assistant, "hello"⟩] },
       [Event.agent_thinking thinkingMsg, Event.token_stats, Event.agent_response "hello"],
       1, [], []⟩ :=
  C2_parse_failure_raw envW freshAgent "hello" (by decide) rfl (Or.inl rfl)

/-- C3 counterexample: dispatching a tool call whose name (`foo`) is absent
from the registry emits only an `error` event — no `tool_result` event —
and appends no message at all to the conversation history, contradicting
the claimed failure tool-result and history append. -/
theorem C3_counterexample :
    (executeToolCalls envW freshAgent [c3call]).events = [Event.error "Unknown tool: foo"] ∧
    (executeToolCalls envW freshAgent [c3call]).state.history = freshAgent.history :=
  ⟨rfl, rfl⟩

/-- C3 (amended): dispatching a call whose name is absent from the registry
emits an `error` event naming the unknown tool, appends nothing to the
history, and the loop then continues with the remaining calls exactly as
if the unknown call had not been there. -/
theorem C3_unknown_tool_continues (env : Env) (st : AgentState) (call : Json)
    (rest : List Json)
    (h : getToolByName env.registry (getField call "name") = none) :
    executeToolCalls env st (call :: rest) =
      { state := (executeToolCalls env st rest).state
        events := Event.error ("Unknown tool: " ++ jsTemplateStrOpt (getField call "name"))
          :: (executeToolCalls env st rest).events
        executed := (executeToolCalls env st rest).executed } := by
  simp only [executeToolCalls, execOneCall, h]
  rfl

/-- Witness for `C3_unknown_tool_continues` at concrete inputs. -/
theorem C3_unknown_tool_continues_witness :
    getToolByName envW.registry (getField c3call "name") = none ∧
    executeToolCalls envW freshAgent [c3call, readCall] =
      { state := (executeToolCalls envW freshAgent [readCall]).state
        events := Event.error ("Unknown tool: " ++ jsTemplateStrOpt (getField c3call "name"))
          :: (executeToolCalls envW freshAgent [readCall]).events
        executed := (executeToolCalls envW freshAgent [readCall]).executed } :=
  ⟨rfl, C3_unknown_tool_continues envW freshAgent c3call [readCall] rfl⟩

/-- C5: `reset` clears the turn history to the empty history of a freshly
constructed session, zeroes the loop counter, leaves the system preamble
untouched, empties the pending-approvals table, and resolves every
previously pending approval as not approved. -/
theorem C5_reset_frame (st : AgentState) :
    (resetAgent st).1.history = freshAgent.history ∧
    (resetAgent st).1.history = [] ∧
    (resetAgent st).1.currentLoopCount = 0 ∧
    (resetAgent st).1.systemPrompt = st.systemPrompt ∧
    (resetAgent st).1.pendingApprovals = [] ∧
    (resetAgent st).2 = st.pendingApprovals.map (fun r => (r, false)) :=
  ⟨rfl, rfl, rfl, rfl, rfl, rfl⟩

/-- C6: when a registered tool requires approval and the awaited decision
is `false`, the loop emits the `tool_call`, `approval_request` and denial
`tool_result` events, appends the denial message to the history, never
invokes the tool body (nothing is added to the execution observation), and
continues with the remaining calls from the denial state. -/
theorem C6_denied_approval_skips_execute (env : Env) (st : AgentState) (call : Json)
    (rest : List Json) (t : ToolDefinition)
    (hl : getToolByName env.registry (getField call "name") = some t)
    (ha : t.requiresApproval = true)
    (hd : env.decisions st.approvalIdx = false) :
    executeToolCalls env st (call :: rest) =
      { state := (executeToolCalls env (denialState st t) rest).state
        events := Event.tool_call t.name (getField call "arguments")
          :: Event.approval_request (env.idGen st.approvalIdx) t.name (getField call "arguments")
          :: Event.tool_result t.name denialResult
          :: (executeToolCalls env (denialState st t) rest).events
        executed := (executeToolCalls env (denialState st t) rest).executed } := by
  simp only [executeToolCalls, execOneCall, hl, ha, hd, denialState]
  rfl

/-- Witness for `C6_denied_approval_skips_execute` at concrete inputs. -/
theorem C6_denied_approval_skips_execute_witness :
    getToolByName envW.registry (getField execCall "name") = some sampleExecTool ∧
    sampleExecTool.requiresApproval = true ∧
    envW.decisions freshAgent.approvalIdx = false ∧
    executeToolCalls envW freshAgent [execCall] =
      { state := (executeToolCalls envW (denialState freshAgent sampleExecTool) []).state
        events := Event.tool_call sampleExecTool.name (getField execCall "arguments")
          :: Event.approval_request (envW.idGen freshAgent.approvalIdx) sampleExecTool.name
               (getField execCall "arguments")
          :: Event.tool_result sampleExecTool.name denialResult
          :: (executeToolCalls envW (denialState freshAgent sampleExecTool) []).events
        executed := (executeToolCalls envW (denialState freshAgent sampleExecTool) []).executed } :=
  ⟨rfl, rfl, rfl,
   C6_denied_approval_skips_execute envW freshAgent execCall [] sampleExecTool rfl rfl rfl⟩

/-- C7: resolving a requestId that is not pending — already resolved,
timed out, or never issued — is a silent no-op: the session state is
unchanged and no promise is resolved (and, being a total function, the
operation cannot throw). -/
theorem C7_unknown_resolution_noop (st : AgentState) (requestId : String) (approved : Bool)
    (h : requestId ∉ st.pendingApprovals) :
    handleApproval st requestId approved = (st, []) := by
  simp [handleApproval, h]

/-- Witness for `C7_unknown_resolution_noop` at concrete inputs. -/
theorem C7_unknown_resolution_noop_witness :
    "ghost" ∉ freshAgent.pendingApprovals ∧
    handleApproval freshAgent "ghost" true = (freshAgent, []) :=
  ⟨by decide, C7_unknown_resolution_noop freshAgent "ghost" true (by decide)⟩

/-- C10: a user message whose lowercased, trimmed text is `reset`, `exit`
or `quit` is intercepted as a command: the history is never appended to,
inference is never invoked, and only the fixed `agent_response` is
emitted — with `reset` additionally clearing the history and resolving all
pending approvals as denied. -/
theorem C10_command_interception (env : Env) (st : AgentState) (content : String) :
    (jsTrim (jsToLower content) = "reset" →
      handleUserMessage env st content =
        { state := (resetAgent st).1
          events := [Event.agent_response "Memory reset. Conversation history cleared."]
          infCalls := 0
          executed := []
          resolutions := st.pendingApprovals.map (fun r => (r, false)) }) ∧
    (jsTrim (jsToLower content) = "exit" ∨ jsTrim (jsToLower content) = "quit" →
      handleUserMessage env st content =
        { state := st
          events := [Event.agent_response "Goodbye! Exiting..."]
          infCalls := 0
          executed := []
          resolutions := [] }) := by
  constructor
  · intro h
    unfold handleUserMessage
    rw [if_pos h]
    rfl
  · intro h
    have hr : jsTrim (jsToLower content) ≠ "reset" := by
      rcases h with h | h <;> rw [h] <;> decide
    unfold handleUserMessage
    rw [if_neg hr, if_pos h]

/-- Witness for `C10_command_interception` at concrete inputs. -/
theorem C10_command_interception_witness :
    jsTrim (jsToLower " RESET ") = "reset" ∧
    handleUserMessage envW pendingAgent " RESET " =
      { state := (resetAgent pendingAgent).1
        events := [Event.agent_response "Memory reset. Conversation history cleared."]
        infCalls := 0
        executed := []
        resolutions := pendingAgent.pendingApprovals.map (fun r => (r, false)) } ∧
    handleUserMessage envW freshAgent "Quit" =
      { state := freshAgent
        events := [Event.agent_response "Goodbye! Exiting..."]
        infCalls := 0
        executed := []
        resolutions := [] } :=
  ⟨by decide, (C10_command_interception envW pendingAgent " RESET ").1 (by decide),
   (C10_command_interception envW freshAgent "Quit").2 (Or.inr (by decide))⟩

theorem execOneCall_history_shape (env : Env) (st : AgentState) (call : Json) :
    ∃ δ : List ChatMessage,
      (execOneCall env st call).state.history = st.history ++ δ ∧
      (∀ m ∈ δ, m.role = Role.assistant) ∧
      δ.length = (if (getToolByName env.registry (getField call "name")).isSome then 1 else 0) := by
  simp only [execOneCall]
  split
  · rename_i hnone
    exact ⟨[], by simp, by simp, by simp [hnone]⟩
  · rename_i t hsome
    split
    · split
      · cases hex : t.execute (getField call "arguments") with
        | ok r =>
          exact ⟨[⟨Role.assistant, "Executed " ++ t.name ++ " with result: " ++ r.stringify⟩],
            by simp [runToolExec, hex], by simp, by simp [hsome]⟩
        | thrown m =>
          exact ⟨[⟨Role.assistant, "Error executing " ++ t.name ++ ": " ++ m⟩],
            by simp [runToolExec, hex], by simp, by simp [hsome]⟩
      · exact ⟨[⟨Role.assistant, "Tool " ++ t.name ++ " was denied by the user."⟩],
          by simp, by simp, by simp [hsome]⟩
    · cases hex : t.execute (getField call "arguments") with
      | ok r =>
        exact ⟨[⟨Role.assistant, "Executed " ++ t.name ++ " with result: " ++ r.stringify⟩],
          by simp [runToolExec, hex], by simp, by simp [hsome]⟩
      | thrown m =>
        exact ⟨[⟨Role.assistant, "Error executing " ++ t.name ++ ": " ++ m⟩],
          by simp [runToolExec, hex], by simp, by simp [hsome]⟩

theorem executeToolCalls_history_shape (env : Env) (batch : List Json) :
    ∀ st : AgentState,
      ∃ δ : List ChatMessage,
        (executeToolCalls env st batch).state.history = st.history ++ δ ∧
        (∀ m ∈ δ, m.role = Role.assistant) ∧
        δ.length = batch.countP
          (fun call => (getToolByName env.registry (getField call "name")).isSome) := by
  induction batch with
  | nil => intro st; exact ⟨[], by simp [executeToolCalls], by simp, by simp⟩
  | cons c rest ih =>
    intro st
    obtain ⟨δ1, h1, r1, l1⟩ := execOneCall_history_shape env st c
    obtain ⟨δ2, h2, r2, l2⟩ := ih (execOneCall env st c).state
    refine ⟨δ1 ++ δ2, ?_, ?_, ?_⟩
    · show (executeToolCalls env (execOneCall env st c).state rest).state.history = _
      rw [h2, h1, List.append_assoc]
    · intro m hm
      rcases List.mem_append.1 hm with h | h
      exacts [r1 m h, r2 m h]
    · rw [List.length_append, l1, l2, List.countP_cons]
      rw [Nat.add_comm]

/-- C9 (amended): the tool phase appends, for each call that resolves to a
registered tool, exactly one message, always with role `assistant` (there
is no `tool` role and no `toolCallId` in the source `ChatMessage`), in
batch order, and it is a total function (it never throws). -/
theorem C9_tool_results_as_assistant_messages (env : Env) (st : AgentState)
    (batch : List Json) :
    (executeToolCalls env st batch).state.history = st.history ++ newMessages env st batch ∧
    (∀ m ∈ newMessages env st batch, m.role = Role.assistant) ∧
    (newMessages env st batch).length = batch.countP
      (fun call => (getToolByName env.registry (getField call "name")).isSome) := by
  obtain ⟨δ, h, r, l⟩ := executeToolCalls_history_shape env batch st
  have hδ : newMessages env st batch = δ := by
    unfold newMessages
    rw [h]
    exact List.drop_left _ _
  refine ⟨?_, ?_, ?_⟩
  · rw [hδ]; exact h
  · rw [hδ]; exact r
  · rw [hδ]; exact l

/-- Witness for `C9_tool_results_as_assistant_messages` at concrete inputs. -/
theorem C9_tool_results_as_assistant_messages_witness :
    (executeToolCalls envW freshAgent [readCall, c3call]).state.history =
      freshAgent.history ++ newMessages envW freshAgent [readCall, c3call] ∧
    (newMessages envW freshAgent [readCall, c3call]).length =
      [readCall, c3call].countP
        (fun call => (getToolByName envW.registry (getField call "name")).isSome) :=
  ⟨(C9_tool_results_as_assistant_messages envW freshAgent [readCall, c3call]).1,
   (C9_tool_results_as_assistant_messages envW freshAgent [readCall, c3call]).2.2⟩

/-- C9 counterexample: the recorded tool result is a single message of role
`assistant` with the serialized result inlined in its content — not a
`tool`-role message, and the source `ChatMessage` carries no `toolCallId`
at all. -/
theorem C9_counterexample :
    (executeToolCalls envW freshAgent [readCall]).state.history =
      [⟨Role.assistant, "Executed read_file with result: \"data\""⟩] :=
  rfl

theorem filterRid_map_nil {rid : String} {l : List String} (h : rid ∉ l) :
    ((l.map (fun r => (r, false))).filter (fun p => p.1 == rid)) = [] := by
  rw [List.filter_eq_nil_iff]
  intro p hp
  obtain ⟨r, hr, rfl⟩ := List.mem_map.1 hp
  simp only [beq_iff_eq]
  exact fun e => h (e ▸ hr)

theorem filterRid_map_single {rid : String} {l : List String} (h : rid ∈ l) (hnd : l.Nodup) :
    ((l.map (fun r => (r, false))).filter (fun p => p.1 == rid)) = [(rid, false)] := by
  induction l with
  | nil => cases h
  | cons a l ih =>
    rcases List.mem_cons.1 h with rfl | hm
    · have hnl : rid ∉ l := (List.nodup_cons.1 hnd).1
      simp only [List.map_cons, List.filter_cons]
      rw [if_pos (by simp)]
      rw [filterRid_map_nil hnl]
    · have ha : a ≠ rid := fun e => (List.nodup_cons.1 hnd).1 (e ▸ hm)
      simp only [List.map_cons, List.filter_cons]
      rw [if_neg (by simp [ha]), ih hm (List.nodup_cons.1 hnd).2]

theorem apprStep_absent (rid : String) (st : AgentState) (e : ApprovalEvent)
    (h : rid ∉ st.pendingApprovals) :
    rid ∉ (apprStep st e).1.pendingApprovals ∧
    ((apprStep st e).2.filter (fun p => p.1 == rid)) = [] := by
  cases e with
  | approve r b =>
    simp only [apprStep, handleApproval]
    by_cases hr : r ∈ st.pendingApprovals
    · rw [if_pos hr]
      refine ⟨fun hm => h (List.erase_subset _ _ hm), ?_⟩
      have hne : r ≠ rid := fun e => h (e ▸ hr)
      simp [hne]
    · rw [if_neg hr]
      exact ⟨h, rfl⟩
  | timeoutFire r =>
    simp only [apprStep]
    by_cases hr : r ∈ st.pendingApprovals
    · rw [if_pos hr]
      refine ⟨fun hm => h (List.erase_subset _ _ hm), ?_⟩
      have hne : r ≠ rid := fun e => h (e ▸ hr)
      simp [hne]
    · rw [if_neg hr]
      exact ⟨h, rfl⟩
  | resetCall =>
    simp only [apprStep, resetAgent]
    exact ⟨by simp, filterRid_map_nil h⟩

theorem apprRun_absent (rid : String) : ∀ (evs : List ApprovalEvent) (st : AgentState),
    rid ∉ st.pendingApprovals →
    rid ∉ (apprRun st evs).1.pendingApprovals ∧
    ((apprRun st evs).2.filter (fun p => p.1 == rid)) = [] := by
  intro evs
  induction evs with
  | nil => intro st h; exact ⟨h, rfl⟩
  | cons e evs ih =>
    intro st h
    have hstep := apprStep_absent rid st e h
    have hrest := ih (apprStep st e).1 hstep.1
    refine ⟨hrest.1, ?_⟩
    show (((apprStep st e).2 ++ (apprRun (apprStep st e).1 evs).2).filter _) = []
    rw [List.filter_append, hstep.2, hrest.2]
    rfl

theorem apprRun_pending_timeout (rid : String) :
    ∀ (evs1 : List ApprovalEvent) (st : AgentState),
      rid ∈ st.pendingApprovals → st.pendingApprovals.Nodup →
      (∀ b, ApprovalEvent.approve rid b ∉ evs1) →
      ∀ evs2 : List ApprovalEvent,
        rid ∉ (apprRun st (evs1 ++ ApprovalEvent.timeoutFire rid :: evs2)).1.pendingApprovals ∧
        ((apprRun st (evs1 ++ ApprovalEvent.timeoutFire rid :: evs2)).2.filter
          (fun p => p.1 == rid)) = [(rid, false)] := by
  intro evs1
  induction evs1 with
  | nil =>
    intro st hmem hnd _ evs2
    have hstep : apprStep st (ApprovalEvent.timeoutFire rid) =
        ({ st with pendingApprovals := st.pendingApprovals.erase rid }, [(rid, false)]) := by
      simp only [apprStep]
      rw [if_pos hmem]
    have habs := apprRun_absent rid evs2
      { st with pendingApprovals := st.pendingApprovals.erase rid } hnd.not_mem_erase
    show rid ∉ (apprRun (apprStep st (ApprovalEvent.timeoutFire rid)).1 evs2).1.pendingApprovals ∧
      (((apprStep st (ApprovalEvent.timeoutFire rid)).2 ++
        (apprRun (apprStep st (ApprovalEvent.timeoutFire rid)).1 evs2).2).filter
          (fun p => p.1 == rid)) = [(rid, false)]
    rw [hstep]
    refine ⟨habs.1, ?_⟩
    rw [List.filter_append, habs.2]
    simp
  | cons e evs1 ih =>
    intro st hmem hnd hnores evs2
    have htail : ∀ b, ApprovalEvent.approve rid b ∉ evs1 :=
      fun b hm => hnores b (List.mem_cons_of_mem _ hm)
    show rid ∉ (apprRun (apprStep st e).1
        (evs1 ++ ApprovalEvent.timeoutFire rid :: evs2)).1.pendingApprovals ∧
      (((apprStep st e).2 ++
        (apprRun (apprStep st e).1 (evs1 ++ ApprovalEvent.timeoutFire rid :: evs2)).2).filter
          (fun p => p.1 == rid)) = [(rid, false)]
    cases e with
    | approve r b =>
      have hne : r ≠ rid := fun he => hnores b (by rw [he]; exact List.mem_cons_self _ _)
      simp only [apprStep, handleApproval]
      by_cases hr : r ∈ st.pendingApprovals
      · rw [if_pos hr]
        have := ih { st with pendingApprovals := st.pendingApprovals.erase r }
          ((List.mem_erase_of_ne (fun he => hne he.symm)).2 hmem) (hnd.erase r) htail evs2
        refine ⟨this.1, ?_⟩
        rw [List.filter_append, this.2]
        simp [hne]
      · rw [if_neg hr]
        have := ih st hmem hnd htail evs2
        refine ⟨this.1, ?_⟩
        rw [List.filter_append, this.2]
        rfl
    | timeoutFire r =>
      simp only [apprStep]
      by_cases hreq : r = rid
      · subst hreq
        rw [if_pos hmem]
        have habs := apprRun_absent r (evs1 ++ ApprovalEvent.timeoutFire r :: evs2)
          { st with pendingApprovals := st.pendingApprovals.erase r } hnd.not_mem_erase
        refine ⟨habs.1, ?_⟩
        rw [List.filter_append, habs.2]
        simp
      · by_cases hr : r ∈ st.pendingApprovals
        · rw [if_pos hr]
          have := ih { st with pendingApprovals := st.pendingApprovals.erase r }
            ((List.mem_erase_of_ne (fun he => hreq he.symm)).2 hmem) (hnd.erase r) htail evs2
          refine ⟨this.1, ?_⟩
          rw [List.filter_append, this.2]
          simp [hreq]
        · rw [if_neg hr]
          have := ih st hmem hnd htail evs2
          refine ⟨this.1, ?_⟩
          rw [List.filter_append, this.2]
          rfl
    | resetCall =>
      simp only [apprStep, resetAgent]
      have habs := apprRun_absent rid (evs1 ++ ApprovalEvent.timeoutFire rid :: evs2)
        ({ st with history := [], currentLoopCount := 0, pendingApprovals := [] } : AgentState)
        (by simp)
      refine ⟨habs.1, ?_⟩
      rw [List.filter_append, habs.2, List.append_nil]
      exact filterRid_map_single hmem hnd

/-- C4: a created ApprovalRequest always reaches a resolved state.  After
`requestApproval` registers a fresh id, consider any sequence of stimuli
containing the firing of the 60000 ms timeout armed for that id (the
`setTimeout` semantics guarantees the firing occurs once the delay has
elapsed).  If no explicit resolution for the id arrives before the timeout
fires, then afterwards the id is no longer pending and its promise has
been resolved exactly once, with the decision `false`. -/
theorem C4_approval_timeout_resolves (st : AgentState) (rid toolName : String)
    (args : Option Json) (evs1 evs2 : List ApprovalEvent)
    (hfresh : rid ∉ st.pendingApprovals)
    (hnd : st.pendingApprovals.Nodup)
    (hnores : ∀ b, ApprovalEvent.approve rid b ∉ evs1) :
    approvalTimeoutMs = 60000 ∧
    rid ∉ (apprRun (requestApproval st rid toolName args).1
      (evs1 ++ ApprovalEvent.timeoutFire rid :: evs2)).1.pendingApprovals ∧
    ((apprRun (requestApproval st rid toolName args).1
      (evs1 ++ ApprovalEvent.timeoutFire rid :: evs2)).2.filter
        (fun p => p.1 == rid)) = [(rid, false)] := by
  have hmem : rid ∈ (requestApproval st rid toolName args).1.pendingApprovals := by
    simp [requestApproval]
  have hnd1 : (requestApproval st rid toolName args).1.pendingApprovals.Nodup := by
    simp only [requestApproval]
    rw [List.nodup_append]
    refine ⟨hnd, List.nodup_singleton _, ?_⟩
    intro a ha hb
    rw [List.mem_singleton.1 hb] at ha
    exact hfresh ha
  have := apprRun_pending_timeout rid evs1 _ hmem hnd1 hnores evs2
  exact ⟨rfl, this.1, this.2⟩

/-- Witness for `C4_approval_timeout_resolves` at concrete inputs. -/
theorem C4_approval_timeout_resolves_witness :
    "r1" ∉ (apprRun (requestApproval freshAgent "r1" "execute_command" none).1
      ([] ++ ApprovalEvent.timeoutFire "r1" :: [])).1.pendingApprovals ∧
    ((apprRun (requestApproval freshAgent "r1" "execute_command" none).1
      ([] ++ ApprovalEvent.timeoutFire "r1" :: [])).2.filter
        (fun p => p.1 == "r1")) = [("r1", false)] :=
  ⟨(C4_approval_timeout_resolves freshAgent "r1" "execute_command" none [] []
      (by simp [freshAgent]) (by simp [freshAgent]) (fun b => List.not_mem_nil _)).2.1,
   (C4_approval_timeout_resolves freshAgent "r1" "execute_command" none [] []
      (by simp [freshAgent]) (by simp [freshAgent]) (fun b => List.not_mem_nil _)).2.2⟩

theorem dropWhile_append_all {p : Char → Bool} :
    ∀ (pre x : List Char), (∀ c ∈ pre, p c = true) →
      List.dropWhile p (pre ++ x) = List.dropWhile p x := by
  intro pre
  induction pre with
  | nil => intro x _; rfl
  | cons c pre ih =>
    intro x h
    rw [List.cons_append, List.dropWhile_cons_of_pos (h c (List.mem_cons_self _ _)),
      ih x (fun d hd => h d (List.mem_cons_of_mem _ hd))]

theorem lastIdxOf_eq_none {c : Char} : ∀ {l : List Char}, c ∉ l → lastIdxOf c l = none := by
  intro l
  induction l with
  | nil => intro _; rfl
  | cons x xs ih =>
    intro h
    have hx : x ≠ c := fun e => h (e ▸ List.mem_cons_self _ _)
    simp only [lastIdxOf, ih (fun hm => h (List.mem_cons_of_mem _ hm))]
    rw [if_neg hx]

theorem lastIdxOf_append_of_not_mem {c : Char} :
    ∀ (xs ys : List Char), c ∉ ys → lastIdxOf c (xs ++ ys) = lastIdxOf c xs := by
  intro xs ys h
  induction xs with
  | nil => exact lastIdxOf_eq_none h
  | cons x xs ih => simp only [List.cons_append, lastIdxOf, List.append_eq, ih]

theorem lastIdxOf_concat_self {c : Char} : ∀ bs : List Char,
    lastIdxOf c (bs ++ [c]) = some bs.length := by
  intro bs
  induction bs with
  | nil => simp [lastIdxOf]
  | cons b bs ih =>
    simp only [List.cons_append, lastIdxOf, List.append_eq, ih, List.length_cons]

theorem jsonExtract_sandwich (pre mid post : List Char)
    (hpre : lbraceChar ∉ pre) (hpost : rbraceChar ∉ post) :
    jsonExtract (pre ++ (lbraceChar :: mid ++ [rbraceChar]) ++ post) =
      some (lbraceChar :: mid ++ [rbraceChar]) := by
  unfold jsonExtract
  have h1 : List.dropWhile (fun c => c ≠ lbraceChar)
      (pre ++ (lbraceChar :: mid ++ [rbraceChar]) ++ post) =
      (lbraceChar :: mid ++ [rbraceChar]) ++ post := by
    rw [List.append_assoc]
    rw [dropWhile_append_all pre _ (fun c hc => by
      simp only [decide_eq_true_eq]
      exact fun e => hpre (e ▸ hc))]
    simp
  rw [h1]
  have h2 : lastIdxOf rbraceChar ((lbraceChar :: mid ++ [rbraceChar]) ++ post) =
      some (lbraceChar :: mid).length := by
    rw [lastIdxOf_append_of_not_mem _ post hpost]
    have : lbraceChar :: mid ++ [rbraceChar] = (lbraceChar :: mid) ++ [rbraceChar] := by simp
    rw [this, lastIdxOf_concat_self]
  rw [h2]
  show some (((lbraceChar :: mid ++ [rbraceChar]) ++ post).take ((lbraceChar :: mid).length + 1)) =
    some (lbraceChar :: mid ++ [rbraceChar])
  have h4 : (lbraceChar :: mid).length + 1 = (lbraceChar :: mid ++ [rbraceChar]).length := by
    simp
  rw [h4, List.take_left]

/-- C8 (amended): for model output of the shape `pre ++ block ++ post`,
where `block` is a well-formed brace-delimited JSON payload, the leading
filler contains no opening brace and the trailing filler contains no
closing brace, the parser extracts exactly that block and returns its
parse.  (The brace restriction on the filler is forced by the
counterexample: the source regex runs greedily from the first opening
brace to the last closing brace of the whole text, so braces in the filler
can defeat extraction.) -/
theorem C8_block_intent_extracted (pre mid post : List Char) (j : Json)
    (hpre : lbraceChar ∉ pre) (hpost : rbraceChar ∉ post)
    (hparse : jsonParse (lbraceChar :: mid ++ [rbraceChar]) = some j) :
    parseResponse (String.mk (pre ++ (lbraceChar :: mid ++ [rbraceChar]) ++ post)) =
      ParseResult.parsed j := by
  have he := jsonExtract_sandwich pre mid post hpre hpost
  simp only [parseResponse, he, hparse]

/-- Witness for `C8_block_intent_extracted` at concrete inputs. -/
theorem C8_block_intent_extracted_witness :
    lbraceChar ∉ "ok ".data ∧ rbraceChar ∉ " done".data ∧
    parseResponse (String.mk ("ok ".data ++
        (lbraceChar :: "\"a\":1".data ++ [rbraceChar]) ++ " done".data)) =
      ParseResult.parsed (Json.obj [("a", Json.num ['1'])]) :=
  ⟨by decide, by decide,
   C8_block_intent_extracted "ok ".data "\"a\":1".data " done".data _
     (by decide) (by decide) rfl⟩

/-- C8 counterexample: `c8input` consists of exactly one well-formed
payload block surrounded by conversational filler, but because the suffix
filler contains a closing brace the greedy match spans past the block,
`JSON.parse` fails, and the parser falls back to the whole raw text
instead of the block's intent — so extraction does not succeed regardless
of the filler's content. -/
theorem C8_counterexample :
    parseResponse c8input = ParseResult.raw c8input ∧
    jsonParse "\x7b\"response\":\"hi\"\x7d".data =
      some (Json.obj [("response", Json.str "hi")]) ∧
    ParseResult.raw c8input ≠ ParseResult.parsed (Json.obj [("response", Json.str "hi")]) :=
  ⟨rfl, rfl, fun h => ParseResult.noConfusion h⟩
